import Mathlib

/-!
# MINI_BUDGET ledger core: shallow embedding

A shallow embedding of the ledger core of the MINI_BUDGET repository
(`ledger/models.py`, `ledger/services.py`, `ledger/repository.py`,
`ledger/utils.py`), together with proofs and refutations of the
specification's claims about it.

Conventions:
* Python `datetime` objects are modelled by the `DateTime` structure
  (year/month/day/hour/minute/second as naturals, lexicographic order).
* Python `float` amounts are modelled by `ℚ`.
* Python functions that can raise are modelled with `Option`.
* Python strings are Lean `String`s; date formatting/parsing is carried
  out on the underlying `List Char`.
-/

/-- Model of a Python `datetime.datetime` value. -/
structure DateTime where
  year : Nat
  month : Nat
  day : Nat
  hour : Nat
  minute : Nat
  second : Nat
deriving DecidableEq, Repr

/-- Lexicographic `<=` on datetimes, as Python compares `datetime` objects. -/
def DateTime.leB (a b : DateTime) : Bool :=
  (a.year < b.year) ||
  (a.year = b.year && ((a.month < b.month) ||
    (a.month = b.month && ((a.day < b.day) ||
      (a.day = b.day && ((a.hour < b.hour) ||
        (a.hour = b.hour && ((a.minute < b.minute) ||
          (a.minute = b.minute && a.second ≤ b.second)))))))))

/-- Gregorian leap-year test, as in Python's `calendar` module. -/
def isLeapYear (y : Nat) : Bool :=
  (y % 4 = 0 && y % 100 ≠ 0) || y % 400 = 0

/-- Number of days of a month; `calendar.monthrange(y, m)[1]`. -/
def daysInMonth (y m : Nat) : Nat :=
  if m = 2 then (if isLeapYear y then 29 else 28)
  else if m = 4 ∨ m = 6 ∨ m = 9 ∨ m = 11 then 30
  else 31

/-- Field ranges guaranteed by Python's `datetime` constructor. -/
def DateTime.validB (d : DateTime) : Bool :=
  1 ≤ d.year && d.year ≤ 9999 && 1 ≤ d.month && d.month ≤ 12 &&
  1 ≤ d.day && d.day ≤ daysInMonth d.year d.month &&
  d.hour < 24 && d.minute < 60 && d.second < 60

/-! ## Date strings: `strftime('%Y-%m-%d')` and the parsers of `from_dict` -/

/-- The ASCII digit character for `n % 10`. -/
def digitChar (n : Nat) : Char := Char.ofNat (48 + n % 10)

/-- ASCII digit test (as used by `strptime` field matching). -/
def isDigitChar (c : Char) : Bool := 48 ≤ c.toNat && c.toNat ≤ 57

/-- Decimal value of a digit string (caller checks `isDigitChar`). -/
def digitsToNat (cs : List Char) : Nat :=
  cs.foldl (fun a c => a * 10 + (c.toNat - 48)) 0

/-- Two-digit zero-padded rendering, `%m` / `%d`. -/
def pad2 (n : Nat) : List Char := [digitChar (n / 10), digitChar n]

/-- Four-digit zero-padded rendering, `%Y`. -/
def pad4 (n : Nat) : List Char :=
  [digitChar (n / 1000), digitChar (n / 100), digitChar (n / 10), digitChar n]

/-- Embedding of `date.strftime('%Y-%m-%d')`. -/
def formatDateDash (d : DateTime) : String :=
  ⟨pad4 d.year ++ '-' :: pad2 d.month ++ '-' :: pad2 d.day⟩

/-- Python `str.split(sep)` on character lists: always returns at least
one (possibly empty) group. -/
def splitOnChar (sep : Char) : List Char → List (List Char)
  | [] => [[]]
  | c :: rest =>
    match splitOnChar sep rest with
    | [] => [[]]
    | g :: gs => if c = sep then [] :: g :: gs else (c :: g) :: gs

/-- Embedding of `datetime.strptime(s, '%Y<sep>%m<sep>%d')`: three all-digit groups of
bounded width, field values range-checked by the `datetime` constructor. -/
def parseYmdSep (sep : Char) (s : String) : Option DateTime :=
  match splitOnChar sep s.data with
  | [y, m, d] =>
    if y ≠ [] && y.length ≤ 4 && y.all isDigitChar &&
       m ≠ [] && m.length ≤ 2 && m.all isDigitChar &&
       d ≠ [] && d.length ≤ 2 && d.all isDigitChar then
      let Y := digitsToNat y
      let M := digitsToNat m
      let D := digitsToNat d
      if 1 ≤ Y && Y ≤ 9999 && 1 ≤ M && M ≤ 12 && 1 ≤ D && D ≤ daysInMonth Y M
      then some ⟨Y, M, D, 0, 0, 0⟩
      else none
    else none
  | _ => none

/-- The optional `HH[:MM[:SS]]` part accepted by `datetime.fromisoformat`. -/
def parseIsoTime (cs : List Char) : Option (Nat × Nat × Nat) :=
  match cs with
  | [h1, h2] =>
    if [h1, h2].all isDigitChar then
      let H := digitsToNat [h1, h2]
      if H < 24 then some (H, 0, 0) else none
    else none
  | [h1, h2, c1, m1, m2] =>
    if c1 = ':' && [h1, h2, m1, m2].all isDigitChar then
      let H := digitsToNat [h1, h2]
      let M := digitsToNat [m1, m2]
      if H < 24 && M < 60 then some (H, M, 0) else none
    else none
  | [h1, h2, c1, m1, m2, c2, s1, s2] =>
    if c1 = ':' && c2 = ':' && [h1, h2, m1, m2, s1, s2].all isDigitChar then
      let H := digitsToNat [h1, h2]
      let M := digitsToNat [m1, m2]
      let S := digitsToNat [s1, s2]
      if H < 24 && M < 60 && S < 60 then some (H, M, S) else none
    else none
  | _ => none

/-- Embedding of `datetime.fromisoformat`: `YYYY-MM-DD`, optionally followed by a single
separator character and a time part. -/
def fromisoformat (cs : List Char) : Option DateTime :=
  match cs with
  | y1 :: y2 :: y3 :: y4 :: c1 :: m1 :: m2 :: c2 :: d1 :: d2 :: rest =>
    if c1 = '-' && c2 = '-' && [y1, y2, y3, y4, m1, m2, d1, d2].all isDigitChar then
      let Y := digitsToNat [y1, y2, y3, y4]
      let M := digitsToNat [m1, m2]
      let D := digitsToNat [d1, d2]
      if 1 ≤ Y && Y ≤ 9999 && 1 ≤ M && M ≤ 12 && 1 ≤ D && D ≤ daysInMonth Y M then
        match rest with
        | [] => some ⟨Y, M, D, 0, 0, 0⟩
        | _ :: timePart =>
          match parseIsoTime timePart with
          | some (H, Mi, S) => some ⟨Y, M, D, H, Mi, S⟩
          | none => none
      else none
    else none
  | _ => none

/-- First group of `date_str.split('T')`. -/
def pySplitT (cs : List Char) : List Char :=
  match splitOnChar 'T' cs with
  | [] => []
  | g :: _ => g

/-- The date-parsing cascade of `Transaction.from_dict`: `'%Y-%m-%d'`,
then `'%Y/%m/%d'`, then `fromisoformat(date_str.split('T')[0])`. -/
def pyParseDate (s : String) : Option DateTime :=
  match parseYmdSep '-' s with
  | some d => some d
  | none =>
    match parseYmdSep '/' s with
    | some d => some d
    | none => fromisoformat (pySplitT s.data)

/-- Whitespace stripped by Python's `str.strip()` (ASCII portion). -/
def isPySpace (c : Char) : Bool :=
  c = ' ' || c = '\t' || c = '\n' || c = '\r' || c = '\x0b' || c = '\x0c'

/-- Python `str.strip()`. -/
def pyStrip (s : String) : String :=
  ⟨((s.data.dropWhile isPySpace).reverse.dropWhile isPySpace).reverse⟩

/-! ## The `Transaction` model (`ledger/models.py`) -/

/-- The five attributes of a constructed `Transaction` object. -/
structure Transaction where
  date : DateTime
  category : String
  amount : ℚ
  transaction_type : String
  description : String
deriving DecidableEq, Repr

/-- Embedding of `Transaction.__init__` on well-typed arguments: value validation and
normalisation; `none` models a raised `ValueError`. -/
def Transaction.init (date : DateTime) (category : String) (amount : ℚ)
    (transaction_type : String) (description : String) : Option Transaction :=
  if amount < 0 then none
  else if ¬ (transaction_type = "수입" ∨ transaction_type = "지출") then none
  else if pyStrip category = "" then none
  else some
    { date := date
      category := pyStrip category
      amount := amount
      transaction_type := transaction_type
      description := if description = "" then "" else pyStrip description }

/-- Embedding of `Transaction.is_income`. -/
def Transaction.is_income (t : Transaction) : Bool := t.transaction_type = "수입"

/-- Embedding of `Transaction.is_expense`. -/
def Transaction.is_expense (t : Transaction) : Bool := t.transaction_type = "지출"

/-- Attribute invariants enjoyed by every object built by
`Transaction.__init__` (category/description trimmed, amount
non-negative, type one of the two tags, date fields in `datetime` range). -/
def Transaction.ValidB (t : Transaction) : Bool :=
  0 ≤ t.amount &&
  (t.transaction_type = "수입" || t.transaction_type = "지출") &&
  pyStrip t.category = t.category && t.category ≠ "" &&
  pyStrip t.description = t.description &&
  t.date.validB

/-- The row dictionary produced by `to_dict` / consumed by `from_dict`. -/
structure Record where
  date : String
  category : String
  amount : ℚ
  type : String
  description : String
deriving DecidableEq, Repr

/-- Embedding of `Transaction.to_dict`. -/
def Transaction.to_dict (t : Transaction) : Record :=
  { date := formatDateDash t.date
    category := t.category
    amount := t.amount
    type := t.transaction_type
    description := t.description }

/-- Embedding of `Transaction.from_dict`: parse the date with the three-format cascade,
then construct through `Transaction.__init__`; `none` models a raised
`KeyError`/`ValueError`. -/
def Transaction.from_dict (r : Record) : Option Transaction :=
  match pyParseDate r.date with
  | none => none
  | some d => Transaction.init d r.category r.amount r.type r.description

/-! ## Aggregation engine (`ledger/services.py`) -/

/-- Result of `LedgerService.calculate_balance`. -/
structure Balance where
  income : ℚ
  expense : ℚ
  balance : ℚ
deriving DecidableEq, Repr

/-- One iteration of the `calculate_balance` loop on the
`(total_income, total_expense)` accumulators. -/
def balanceStep (acc : ℚ × ℚ) (t : Transaction) : ℚ × ℚ :=
  if t.transaction_type = "수입" then (acc.1 + t.amount, acc.2)
  else if t.transaction_type = "지출" then (acc.1, acc.2 + t.amount)
  else acc

/-- Embedding of `LedgerService.calculate_balance`. -/
def calculate_balance (transactions : List Transaction) : Balance :=
  let p := transactions.foldl balanceStep (0, 0)
  ⟨p.1, p.2, p.1 - p.2⟩

/-- The loop filter of `get_category_statistics`: skip `t` iff the
`transaction_type` argument is truthy and differs from `t`'s type. -/
def matchesFilter (f : Option String) (t : Transaction) : Bool :=
  match f with
  | none => true
  | some s => if s = "" then true else t.transaction_type = s

/-- Embedding of `category_stats[category] += transaction.amount`: in-place update of
the entry holding `cat`. -/
def updEntry (cat : String) (a : ℚ) (p : String × ℚ) : String × ℚ :=
  if p.1 == cat then (p.1, p.2 + a) else p

/-- One iteration of the `get_category_statistics` loop on the
insertion-ordered dict, modelled as an association list. -/
def statStep (f : Option String) (stats : List (String × ℚ)) (t : Transaction) :
    List (String × ℚ) :=
  if matchesFilter f t then
    if stats.any (fun p => p.1 == t.category) then
      stats.map (updEntry t.category t.amount)
    else stats ++ [(t.category, t.amount)]
  else stats

/-- Comparison used by `sorted(..., key=lambda x: x[1], reverse=True)`. -/
def statGe (p q : String × ℚ) : Prop := q.2 ≤ p.2

instance : DecidableRel statGe := fun p q => inferInstanceAs (Decidable (q.2 ≤ p.2))

instance : IsTotal (String × ℚ) statGe := ⟨fun p q => le_total q.2 p.2⟩

instance : IsTrans (String × ℚ) statGe := ⟨fun _ _ _ h1 h2 => le_trans h2 h1⟩

/-- Embedding of `LedgerService.get_category_statistics`: aggregate into the dict in
encounter order, then stable-sort descending by summed amount. -/
def get_category_statistics (transactions : List Transaction)
    (transaction_type : Option String) : List (String × ℚ) :=
  List.insertionSort statGe (transactions.foldl (statStep transaction_type) [])

/-! ### Calendar events -/

/-- Round-half-to-even, the rounding of Python's `'{:,.0f}'.format`. -/
def roundHalfEven (q : ℚ) : ℤ :=
  if q - ⌊q⌋ = 1 / 2 then (if ⌊q⌋ % 2 = 0 then ⌊q⌋ else ⌊q⌋ + 1) else round q

/-- Reversed digit list of a natural number (least significant first). -/
def natDigitsRev (n : Nat) : List Char :=
  if h : n < 10 then [digitChar n]
  else digitChar (n % 10) :: natDigitsRev (n / 10)
decreasing_by exact Nat.div_lt_self (by omega) (by omega)

/-- Insert a comma after every three digits of a reversed digit list. -/
def commaRev : List Char → Nat → List Char
  | [], _ => []
  | c :: cs, k =>
    if 0 < k ∧ k % 3 = 0 then ',' :: c :: commaRev cs (k + 1)
    else c :: commaRev cs (k + 1)

/-- Thousands-separated rendering of a natural number. -/
def commaGroup (n : Nat) : String := ⟨(commaRev (natDigitsRev n) 0).reverse⟩

/-- Python `'{:,.0f}'.format(x)`. -/
def pyFormatComma0f (q : ℚ) : String :=
  let n := roundHalfEven q
  (if n < 0 then "-" else "") ++ commaGroup n.natAbs

/-- A calendar event dictionary as built by `get_calendar_events`. -/
structure CalEvent where
  title : String
  start : String
  backgroundColor : String
  borderColor : String
  textColor : String
deriving DecidableEq, Repr

/-- The event that the post-loop code of `get_calendar_events` builds from
the transaction bound by the last loop iteration. -/
def calEventOf (t : Transaction) : CalEvent :=
  let is_stock := t.category = "주식매수" ∨ t.category = "주식매도"
  let title :=
    if is_stock then (if t.description ≠ "" then t.description else t.category)
    else t.category ++ " ₩" ++ pyFormatComma0f t.amount
  let color :=
    if t.category = "주식매수" then "#FF6B6B"
    else if t.category = "주식매도" then "#4ECDC4"
    else if t.transaction_type = "수입" then "#51CF66"
    else "#FFA94D"
  { title := title
    start := formatDateDash t.date
    backgroundColor := color
    borderColor := color
    textColor := "#FFFFFF" }

/-- Embedding of `LedgerService.get_calendar_events` (the later definition in the class
body, which shadows the earlier one).  Only the `is_stock` assignment is
inside the `for` loop; the title/color/event construction and the single
`events.append(event)` run once after the loop, reading the variables left
by the final iteration.  On an empty input the loop body never runs and
the post-loop read of `is_stock` raises `UnboundLocalError`, modelled by
`none`. -/
def get_calendar_events (transactions : List Transaction) : Option (List CalEvent) :=
  match transactions.getLast? with
  | none => none
  | some t => some [calEventOf t]

/-- The summed amount that an association list assigns to category `c`
(zero when absent; the dict invariant keeps keys distinct). -/
def keyVal (c : String) (stats : List (String × ℚ)) : ℚ :=
  ((stats.filter (fun p => p.1 == c)).map Prod.snd).sum

/-- First occurrences of the elements of a list, skipping those already
in `seen`: the key order that insertion into a Python dict produces. -/
def firstOccs (seen : List String) : List String → List String
  | [] => []
  | c :: cs => if c ∈ seen then firstOccs seen cs else c :: firstOccs (c :: seen) cs

/-! ## Repository (`ledger/repository.py`), file contents passed explicitly -/

/-- One iteration of the `get_all_transactions` loop: convert the row
inside `try/except`, appending on success and skipping on failure. -/
def loadStep (acc : List Transaction) (r : Record) : List Transaction :=
  match Transaction.from_dict r with
  | some t => acc ++ [t]
  | none => acc

/-- Embedding of `LedgerRepository.get_all_transactions` on the data rows of the CSV. -/
def get_all_transactions (rows : List Record) : List Transaction :=
  rows.foldl loadStep []

/-- Comparison used by `filtered.sort(key=lambda x: x.date)`. -/
def dateLe (a b : Transaction) : Prop := DateTime.leB a.date b.date = true

instance : DecidableRel dateLe := fun a b => inferInstanceAs (Decidable (_ = true))

/-- Embedding of `LedgerRepository.get_transactions_by_date_range`: filter `loadAll`
by the inclusive range, then stable-sort ascending by date. -/
def get_transactions_by_date_range (rows : List Record)
    (start_date end_date : DateTime) : List Transaction :=
  List.insertionSort dateLe
    ((get_all_transactions rows).filter
      (fun t => DateTime.leB start_date t.date && DateTime.leB t.date end_date))

/-- Embedding of `get_month_range` from `ledger/utils.py`: first day of the month and
`datetime(year, month, monthrange(year, month)[1])`, both at midnight. -/
def get_month_range (year month : Nat) : DateTime × DateTime :=
  (⟨year, month, 1, 0, 0, 0⟩, ⟨year, month, daysInMonth year month, 0, 0, 0⟩)

/-- Embedding of `LedgerRepository.get_transactions_by_month`. -/
def get_transactions_by_month (rows : List Record) (year month : Nat) :
    List Transaction :=
  let r := get_month_range year month
  get_transactions_by_date_range rows r.1 r.2

/-! # Verification -/

/-! ## Balance computation -/

lemma foldl_balanceStep (ts : List Transaction) (acc : ℚ × ℚ) :
    ts.foldl balanceStep acc =
      (acc.1 + ((ts.filter (fun t => t.is_income)).map Transaction.amount).sum,
       acc.2 + ((ts.filter (fun t => t.is_expense)).map Transaction.amount).sum) := by
  induction ts generalizing acc with
  | nil => simp
  | cons t ts ih =>
    simp only [List.foldl_cons, ih]
    by_cases h1 : t.transaction_type = "수입"
    · have hi : t.is_income = true := by simp [Transaction.is_income, h1]
      have he : t.is_expense = false := by simp [Transaction.is_expense, h1]
      simp [balanceStep, h1, List.filter_cons, hi, he]
      ring
    · by_cases h2 : t.transaction_type = "지출"
      · have hi : t.is_income = false := by simp [Transaction.is_income, h2]
        have he : t.is_expense = true := by simp [Transaction.is_expense, h2]
        simp [balanceStep, h1, h2, List.filter_cons, hi, he]
        ring
      · have hi : t.is_income = false := by simp [Transaction.is_income, h1]
        have he : t.is_expense = false := by simp [Transaction.is_expense, h2]
        simp [balanceStep, h1, h2, List.filter_cons, hi, he]

lemma calculate_balance_income (ts : List Transaction) :
    (calculate_balance ts).income =
      ((ts.filter (fun t => t.is_income)).map Transaction.amount).sum := by
  simp [calculate_balance, foldl_balanceStep]

lemma calculate_balance_expense (ts : List Transaction) :
    (calculate_balance ts).expense =
      ((ts.filter (fun t => t.is_expense)).map Transaction.amount).sum := by
  simp [calculate_balance, foldl_balanceStep]

/-- C5: `calculate_balance` returns the sum of `is_income` amounts as
`income`, the sum of `is_expense` amounts as `expense`, and
`income - expense` as `balance`; the empty list yields all zeros. -/
theorem C5_calculate_balance_spec (ts : List Transaction) :
    (calculate_balance ts).income =
        ((ts.filter (fun t => t.is_income)).map Transaction.amount).sum
  ∧ (calculate_balance ts).expense =
        ((ts.filter (fun t => t.is_expense)).map Transaction.amount).sum
  ∧ (calculate_balance ts).balance =
        (calculate_balance ts).income - (calculate_balance ts).expense
  ∧ calculate_balance [] = ⟨0, 0, 0⟩ := by
  refine ⟨calculate_balance_income ts, calculate_balance_expense ts, ?_, ?_⟩
  · simp [calculate_balance, foldl_balanceStep]
  · simp [calculate_balance]

/-- C6: the `income` and `expense` fields of `calculate_balance` are
additive under list concatenation. -/
theorem C6_calculate_balance_additive (A B : List Transaction) :
    (calculate_balance (A ++ B)).income
        = (calculate_balance A).income + (calculate_balance B).income
  ∧ (calculate_balance (A ++ B)).expense
        = (calculate_balance A).expense + (calculate_balance B).expense := by
  constructor
  · simp [calculate_balance_income, List.filter_append]
  · simp [calculate_balance_expense, List.filter_append]

/-! ## Construction-time validation -/

/-- C9: construction through `Transaction.__init__` fails exactly when the
amount is negative, the type is neither of the two variants, or the
category is empty after stripping; otherwise it succeeds. -/
theorem C9_init_validation (d : DateTime) (c : String) (a : ℚ)
    (ty desc : String) :
    Transaction.init d c a ty desc = none ↔
      (a < 0 ∨ (ty ≠ "수입" ∧ ty ≠ "지출") ∨ pyStrip c = "") := by
  unfold Transaction.init
  split_ifs with h1 h2 h3 <;> simp_all <;> tauto

/-! ## Calendar events -/

/-- C1: on a two-transaction input, the (mis-indented) later definition of
`get_calendar_events` produces a single event — the one built from the
last transaction — rather than one event per transaction. -/
theorem C1_calendar_events_only_last :
    (get_calendar_events
        [⟨⟨2024, 1, 15, 0, 0, 0⟩, "식비", 15000, "지출", "점심"⟩,
         ⟨⟨2024, 1, 16, 0, 0, 0⟩, "급여", 3000000, "수입", "월급"⟩]).map List.length
      = some 1
  ∧ get_calendar_events
        [⟨⟨2024, 1, 15, 0, 0, 0⟩, "식비", 15000, "지출", "점심"⟩,
         ⟨⟨2024, 1, 16, 0, 0, 0⟩, "급여", 3000000, "수입", "월급"⟩]
      = some [calEventOf ⟨⟨2024, 1, 16, 0, 0, 0⟩, "급여", 3000000, "수입", "월급"⟩] := by
  constructor <;> rfl

/-- C2: `calculate_balance` and `get_category_statistics` handle the empty
input, but `get_calendar_events` fails on it (the post-loop code reads the
loop variable `is_stock`, unbound when the loop body never ran). -/
theorem C2_calendar_events_empty_input_fails :
    get_calendar_events ([] : List Transaction) = none
  ∧ calculate_balance [] = ⟨0, 0, 0⟩
  ∧ get_category_statistics [] none = [] := by
  refine ⟨rfl, ?_, rfl⟩
  simp [calculate_balance]

/-! ## Date-string round-trip -/

lemma digitChar_toNat (n : Nat) : (digitChar n).toNat = 48 + n % 10 := by
  have h : ∀ m, m < 10 → (Char.ofNat (48 + m)).toNat = 48 + m := by decide
  exact h (n % 10) (Nat.mod_lt _ (by norm_num))

lemma isDigitChar_digitChar (n : Nat) : isDigitChar (digitChar n) = true := by
  simp only [isDigitChar, digitChar_toNat, Bool.and_eq_true, decide_eq_true_eq]
  omega

lemma isDigitChar_ne {c : Char} (h : isDigitChar c = true) (c' : Char)
    (hc' : c'.toNat < 48 ∨ 57 < c'.toNat) : c ≠ c' := by
  intro he
  subst he
  simp only [isDigitChar, Bool.and_eq_true, decide_eq_true_eq] at h
  omega

lemma mem_pad2_digit {n : Nat} {c : Char} (hc : c ∈ pad2 n) : isDigitChar c = true := by
  simp only [pad2, List.mem_cons, List.mem_singleton, List.not_mem_nil, or_false] at hc
  rcases hc with h | h <;> subst h <;> exact isDigitChar_digitChar _

lemma mem_pad4_digit {n : Nat} {c : Char} (hc : c ∈ pad4 n) : isDigitChar c = true := by
  simp only [pad4, List.mem_cons, List.mem_singleton, List.not_mem_nil, or_false] at hc
  rcases hc with h | h | h | h <;> subst h <;> exact isDigitChar_digitChar _

lemma digitsToNat_pad2 {n : Nat} (h : n < 100) : digitsToNat (pad2 n) = n := by
  simp only [digitsToNat, pad2, List.foldl_cons, List.foldl_nil, digitChar_toNat]
  omega

lemma digitsToNat_pad4 {n : Nat} (h : n < 10000) : digitsToNat (pad4 n) = n := by
  simp only [digitsToNat, pad4, List.foldl_cons, List.foldl_nil, digitChar_toNat]
  omega

lemma splitOnChar_ne_nil (sep : Char) (l : List Char) : splitOnChar sep l ≠ [] := by
  cases l with
  | nil => simp [splitOnChar]
  | cons c rest =>
    unfold splitOnChar
    cases h : splitOnChar sep rest with
    | nil => simp
    | cons g gs => by_cases hc : c = sep <;> simp [hc]

lemma splitOnChar_no_sep (sep : Char) (a : List Char) (h : ∀ c ∈ a, c ≠ sep) :
    splitOnChar sep a = [a] := by
  induction a with
  | nil => rfl
  | cons c rest ih =>
    have hc : c ≠ sep := h c (by simp)
    have hrest : splitOnChar sep rest = [rest] := ih (fun x hx => h x (by simp [hx]))
    unfold splitOnChar
    rw [hrest]
    simp [hc]

lemma splitOnChar_append (sep : Char) (a b : List Char) (h : ∀ c ∈ a, c ≠ sep) :
    splitOnChar sep (a ++ sep :: b) = a :: splitOnChar sep b := by
  induction a with
  | nil =>
    show splitOnChar sep (sep :: b) = [] :: splitOnChar sep b
    cases hsb : splitOnChar sep b with
    | nil => exact absurd hsb (splitOnChar_ne_nil sep b)
    | cons g gs =>
      conv_lhs => rw [splitOnChar]
      rw [hsb]
      simp
  | cons c rest ih =>
    have hc : c ≠ sep := h c (by simp)
    have hrec := ih (fun x hx => h x (by simp [hx]))
    show splitOnChar sep (c :: (rest ++ sep :: b)) = (c :: rest) :: splitOnChar sep b
    conv_lhs => rw [splitOnChar]
    rw [hrec]
    simp [hc]

lemma daysInMonth_le_31 (y m : Nat) : daysInMonth y m ≤ 31 := by
  unfold daysInMonth
  split_ifs <;> omega

lemma parseYmdSep_format (d : DateTime) (h : d.validB = true) :
    parseYmdSep '-' (formatDateDash d) = some ⟨d.year, d.month, d.day, 0, 0, 0⟩ := by
  simp only [DateTime.validB, Bool.and_eq_true, decide_eq_true_eq] at h
  obtain ⟨⟨⟨⟨⟨⟨⟨⟨hy1, hy2⟩, hm1⟩, hm2⟩, hd1⟩, hd2⟩, hh⟩, hmin⟩, hs⟩ := h
  have hpad4 : ∀ c ∈ pad4 d.year, c ≠ '-' :=
    fun c hc => isDigitChar_ne (mem_pad4_digit hc) '-' (by decide)
  have hpad2m : ∀ c ∈ pad2 d.month, c ≠ '-' :=
    fun c hc => isDigitChar_ne (mem_pad2_digit hc) '-' (by decide)
  have hpad2d : ∀ c ∈ pad2 d.day, c ≠ '-' :=
    fun c hc => isDigitChar_ne (mem_pad2_digit hc) '-' (by decide)
  have hsplit : splitOnChar '-' (formatDateDash d).data
      = [pad4 d.year, pad2 d.month, pad2 d.day] := by
    show splitOnChar '-' (pad4 d.year ++ '-' :: pad2 d.month ++ '-' :: pad2 d.day) = _
    have e1 : pad4 d.year ++ '-' :: pad2 d.month ++ '-' :: pad2 d.day
        = pad4 d.year ++ '-' :: (pad2 d.month ++ '-' :: pad2 d.day) := by simp
    rw [e1, splitOnChar_append '-' _ _ hpad4, splitOnChar_append '-' _ _ hpad2m,
      splitOnChar_no_sep '-' _ hpad2d]
  have hyv : digitsToNat (pad4 d.year) = d.year := digitsToNat_pad4 (by omega)
  have hmv : digitsToNat (pad2 d.month) = d.month := digitsToNat_pad2 (by omega)
  have hdle : d.day ≤ 31 := le_trans hd2 (daysInMonth_le_31 d.year d.month)
  have hdv : digitsToNat (pad2 d.day) = d.day := digitsToNat_pad2 (by omega)
  have hall4 : (pad4 d.year).all isDigitChar = true := by
    rw [List.all_eq_true]
    exact fun c hc => mem_pad4_digit hc
  have hall2m : (pad2 d.month).all isDigitChar = true := by
    rw [List.all_eq_true]
    exact fun c hc => mem_pad2_digit hc
  have hall2d : (pad2 d.day).all isDigitChar = true := by
    rw [List.all_eq_true]
    exact fun c hc => mem_pad2_digit hc
  have h4ne : pad4 d.year ≠ [] := by simp [pad4]
  have h2mne : pad2 d.month ≠ [] := by simp [pad2]
  have h2dne : pad2 d.day ≠ [] := by simp [pad2]
  have hl4 : (pad4 d.year).length = 4 := by simp [pad4]
  have hl2m : (pad2 d.month).length = 2 := by simp [pad2]
  have hl2d : (pad2 d.day).length = 2 := by simp [pad2]
  unfold parseYmdSep
  rw [hsplit]
  simp only [h4ne, h2mne, h2dne, hl4, hl2m, hl2d, hall4, hall2m, hall2d, hyv, hmv, hdv]
  simp [hy1, hy2, hm1, hm2, hd1, hd2]
  exact ⟨h4ne, h2mne, h2dne⟩

/-- C3 (amended): `from_dict (to_dict t)` reproduces `t` for every valid
transaction whose description is free of the field delimiter and whose
date carries no time-of-day component; `to_dict` serialises the date as
`YYYY-MM-DD`, so only start-of-day dates survive the round trip. -/
theorem C3_roundtrip_start_of_day (t : Transaction) (hv : t.ValidB = true)
    (hdelim : ',' ∉ t.description.data)
    (hh : t.date.hour = 0) (hm : t.date.minute = 0) (hs : t.date.second = 0) :
    Transaction.from_dict (Transaction.to_dict t) = some t := by
  simp only [Transaction.ValidB, Bool.and_eq_true, Bool.or_eq_true,
    decide_eq_true_eq] at hv
  obtain ⟨⟨⟨⟨⟨ha, hty⟩, hcat⟩, hcne⟩, hdesc⟩, hdval⟩ := hv
  have hp : pyParseDate (formatDateDash t.date)
      = some ⟨t.date.year, t.date.month, t.date.day, 0, 0, 0⟩ := by
    unfold pyParseDate
    rw [parseYmdSep_format t.date hdval]
  have hmd : (⟨t.date.year, t.date.month, t.date.day, 0, 0, 0⟩ : DateTime) = t.date :=
    calc (⟨t.date.year, t.date.month, t.date.day, 0, 0, 0⟩ : DateTime)
        = ⟨t.date.year, t.date.month, t.date.day, t.date.hour, t.date.minute,
            t.date.second⟩ := by rw [hh, hm, hs]
      _ = t.date := rfl
  show (match pyParseDate (Transaction.to_dict t).date with
    | none => none
    | some d => Transaction.init d (Transaction.to_dict t).category
        (Transaction.to_dict t).amount (Transaction.to_dict t).type
        (Transaction.to_dict t).description) = some t
  have hrec : (Transaction.to_dict t).date = formatDateDash t.date := rfl
  rw [hrec, hp, hmd]
  show Transaction.init t.date t.category t.amount t.transaction_type t.description
      = some t
  unfold Transaction.init
  rw [if_neg (not_lt.mpr ha), if_neg (not_not_intro hty),
    if_neg (by rw [hcat]; exact hcne)]
  have hdd : (if t.description = "" then "" else pyStrip t.description)
      = t.description := by
    by_cases hde : t.description = ""
    · simp [hde]
    · simp [hde, hdesc]
  rw [hcat, hdd]

/-- C3 counterexample: a valid transaction whose date carries a
time-of-day (12:30) does not survive the record round trip — the date is
serialised as `2024-01-15` and parses back to midnight. -/
theorem C3_roundtrip_counterexample :
    Transaction.ValidB ⟨⟨2024, 1, 15, 12, 30, 0⟩, "식비", 15000, "지출", "점심"⟩ = true
  ∧ ',' ∉ ("점심" : String).data
  ∧ Transaction.from_dict
      (Transaction.to_dict ⟨⟨2024, 1, 15, 12, 30, 0⟩, "식비", 15000, "지출", "점심"⟩)
      ≠ some ⟨⟨2024, 1, 15, 12, 30, 0⟩, "식비", 15000, "지출", "점심"⟩ := by
  refine ⟨by decide, by decide, ?_⟩
  decide

/-- Witness for the amended C3 round-trip theorem at a concrete
start-of-day transaction. -/
theorem C3_roundtrip_witness :
    Transaction.ValidB ⟨⟨2024, 1, 15, 0, 0, 0⟩, "식비", 15000, "지출", "점심"⟩ = true
  ∧ ',' ∉ ("점심" : String).data
  ∧ Transaction.from_dict
      (Transaction.to_dict ⟨⟨2024, 1, 15, 0, 0, 0⟩, "식비", 15000, "지출", "점심"⟩)
      = some ⟨⟨2024, 1, 15, 0, 0, 0⟩, "식비", 15000, "지출", "점심"⟩ :=
  ⟨by decide, by decide,
    C3_roundtrip_start_of_day _ (by decide) (by decide) rfl rfl rfl⟩

/-! ## Loading rows from the store -/

lemma foldl_loadStep (rows : List Record) (acc : List Transaction) :
    rows.foldl loadStep acc = acc ++ rows.filterMap Transaction.from_dict := by
  induction rows generalizing acc with
  | nil => simp
  | cons r rows ih =>
    simp only [List.foldl_cons, ih, List.filterMap_cons]
    cases h : Transaction.from_dict r with
    | none => simp [loadStep, h]
    | some t => simp [loadStep, h]

/-- C8: a row on which `from_dict` fails is skipped without affecting the
other rows; a file with zero data rows loads to the empty list; and in
general `get_all_transactions` returns exactly the successfully parsed
rows in file order. -/
theorem C8_load_skips_bad_rows (rows pre post : List Record) (r : Record)
    (hbad : Transaction.from_dict r = none) :
    get_all_transactions (pre ++ r :: post) = get_all_transactions (pre ++ post)
  ∧ get_all_transactions ([] : List Record) = []
  ∧ get_all_transactions rows = rows.filterMap Transaction.from_dict := by
  refine ⟨?_, rfl, ?_⟩
  · simp [get_all_transactions, foldl_loadStep, List.filterMap_append,
      List.filterMap_cons, hbad, loadStep]
  · simp [get_all_transactions, foldl_loadStep]

/-- Witness for C8: a row with the unparseable date `2024-13-05` is
skipped and the two valid rows around it are both still loaded. -/
theorem C8_load_skips_bad_rows_witness :
    Transaction.from_dict ⟨"2024-13-05", "식비", 15000, "지출", ""⟩ = none
  ∧ get_all_transactions
        [⟨"2024-01-15", "급여", 3000000, "수입", "월급"⟩,
         ⟨"2024-13-05", "식비", 15000, "지출", ""⟩,
         ⟨"2024-01-16", "식비", 15000, "지출", "점심"⟩]
      = get_all_transactions
        [⟨"2024-01-15", "급여", 3000000, "수입", "월급"⟩,
         ⟨"2024-01-16", "식비", 15000, "지출", "점심"⟩] :=
  ⟨by decide,
    (C8_load_skips_bad_rows []
      [⟨"2024-01-15", "급여", 3000000, "수입", "월급"⟩]
      [⟨"2024-01-16", "식비", 15000, "지출", "점심"⟩]
      ⟨"2024-13-05", "식비", 15000, "지출", ""⟩ (by decide)).1⟩

/-! ## Month queries -/

/-- C4 (amended): `get_transactions_by_month` delegates to
`get_transactions_by_date_range` with the first day of the month and the
*midnight* of its last day (not end-of-day); consequently a loaded
transaction belongs to the month query exactly when its date lies between
those two midnight instants. -/
theorem C4_month_delegates_midnight_range (rows : List Record) (y m : Nat)
    (t : Transaction) (ht : t ∈ get_all_transactions rows) :
    get_transactions_by_month rows y m
      = get_transactions_by_date_range rows ⟨y, m, 1, 0, 0, 0⟩
          ⟨y, m, daysInMonth y m, 0, 0, 0⟩
  ∧ (t ∈ get_transactions_by_month rows y m ↔
      (DateTime.leB ⟨y, m, 1, 0, 0, 0⟩ t.date
        && DateTime.leB t.date ⟨y, m, daysInMonth y m, 0, 0, 0⟩) = true) := by
  refine ⟨rfl, ?_⟩
  show t ∈ List.insertionSort dateLe _ ↔ _
  rw [List.mem_insertionSort, List.mem_filter]
  simp only [get_month_range, Bool.and_eq_true, ht, true_and]

/-- Witness for C4 (amended): a transaction dated at midnight of
2024-01-31 (the last day of the month) is returned by the month query. -/
theorem C4_month_delegates_midnight_range_witness :
    (⟨⟨2024, 1, 31, 0, 0, 0⟩, "식비", 15000, "지출", ""⟩ : Transaction)
        ∈ get_all_transactions [⟨"2024-01-31", "식비", 15000, "지출", ""⟩]
  ∧ ((⟨⟨2024, 1, 31, 0, 0, 0⟩, "식비", 15000, "지출", ""⟩ : Transaction)
        ∈ get_transactions_by_month [⟨"2024-01-31", "식비", 15000, "지출", ""⟩] 2024 1 ↔
      (DateTime.leB ⟨2024, 1, 1, 0, 0, 0⟩ ⟨2024, 1, 31, 0, 0, 0⟩
        && DateTime.leB ⟨2024, 1, 31, 0, 0, 0⟩ ⟨2024, 1, 31, 0, 0, 0⟩) = true) :=
  ⟨by decide,
    (C4_month_delegates_midnight_range [⟨"2024-01-31", "식비", 15000, "지출", ""⟩]
      2024 1 ⟨⟨2024, 1, 31, 0, 0, 0⟩, "식비", 15000, "지출", ""⟩ (by decide)).2⟩

/-- C4 counterexample: a stored row dated `2024-01-31 12:00:00` (parsed by
the ISO fallback with a time-of-day) is excluded by
`get_transactions_by_month(2024, 1)` even though the range query through
end-of-day of the last calendar day returns it. -/
theorem C4_month_range_counterexample :
    get_transactions_by_month [⟨"2024-01-31 12:00:00", "식비", 15000, "지출", ""⟩] 2024 1
      = []
  ∧ get_transactions_by_date_range
        [⟨"2024-01-31 12:00:00", "식비", 15000, "지출", ""⟩]
        ⟨2024, 1, 1, 0, 0, 0⟩ ⟨2024, 1, 31, 23, 59, 59⟩
      = [⟨⟨2024, 1, 31, 12, 0, 0⟩, "식비", 15000, "지출", ""⟩] := by
  constructor <;> decide

/-! ## Category statistics -/

lemma any_key_iff (stats : List (String × ℚ)) (c : String) :
    stats.any (fun p => p.1 == c) = true ↔ c ∈ stats.map Prod.fst := by
  rw [List.any_eq_true]
  constructor
  · rintro ⟨p, hp, he⟩
    exact List.mem_map.mpr ⟨p, hp, by simpa using he⟩
  · intro hc
    rcases List.mem_map.mp hc with ⟨p, hp, he⟩
    exact ⟨p, hp, by simpa using he⟩

lemma filter_key_of_not_mem {c : String} {stats : List (String × ℚ)}
    (h : c ∉ stats.map Prod.fst) : stats.filter (fun p => p.1 == c) = [] := by
  induction stats with
  | nil => rfl
  | cons q stats ih =>
    simp only [List.map_cons, List.mem_cons, not_or] at h
    have hq : ¬ q.1 = c := fun he => h.1 (he ▸ rfl)
    simp [List.filter_cons, beq_iff_eq, hq, ih h.2]

lemma filter_key_length_one {c : String} {stats : List (String × ℚ)}
    (hnd : (stats.map Prod.fst).Nodup)
    (hmem : stats.any (fun p => p.1 == c) = true) :
    (stats.filter (fun p => p.1 == c)).length = 1 := by
  induction stats with
  | nil => simp at hmem
  | cons q stats ih =>
    simp only [List.map_cons, List.nodup_cons] at hnd
    by_cases hq : q.1 = c
    · have hnotin : c ∉ stats.map Prod.fst := hq ▸ hnd.1
      simp [List.filter_cons, beq_iff_eq, hq, filter_key_of_not_mem hnotin]
    · have hmem' : stats.any (fun p => p.1 == c) = true := by
        simp only [List.any_cons, beq_iff_eq, Bool.or_eq_true, decide_eq_true_eq] at hmem
        rcases hmem with h | h
        · exact absurd h hq
        · simpa [List.any_eq_true, beq_iff_eq] using h
      simp [List.filter_cons, beq_iff_eq, hq, ih hnd.2 hmem']

lemma updEntry_fst (cat : String) (a : ℚ) (p : String × ℚ) :
    (updEntry cat a p).1 = p.1 := by
  unfold updEntry
  split <;> rfl

lemma map_updEntry_keys (cat : String) (a : ℚ) (stats : List (String × ℚ)) :
    (stats.map (updEntry cat a)).map Prod.fst = stats.map Prod.fst := by
  rw [List.map_map]
  exact List.map_congr_left (fun p _ => updEntry_fst cat a p)

lemma sum_snd_shift (l : List (String × ℚ)) (a : ℚ) :
    ((l.map (fun p => (p.1, p.2 + a))).map Prod.snd).sum
      = (l.map Prod.snd).sum + (l.length : ℚ) * a := by
  induction l with
  | nil => simp
  | cons q l ih =>
    simp only [List.map_cons, List.sum_cons, List.length_cons, ih]
    push_cast
    ring

lemma map_updEntry_sum (cat : String) (a : ℚ) (stats : List (String × ℚ)) :
    ((stats.map (updEntry cat a)).map Prod.snd).sum
      = (stats.map Prod.snd).sum
        + ((stats.filter (fun p => p.1 == cat)).length : ℚ) * a := by
  induction stats with
  | nil => simp
  | cons q stats ih =>
    by_cases hq : q.1 = cat
    · simp only [List.map_cons, List.sum_cons, updEntry, beq_iff_eq, hq,
        if_pos rfl, List.filter_cons]
      rw [List.map_map, ← List.map_map, ih]
      simp [hq]
      push_cast
      ring
    · simp only [List.map_cons, List.sum_cons, updEntry, beq_iff_eq,
        if_neg hq, List.filter_cons]
      rw [List.map_map, ← List.map_map, ih]
      ring

lemma filter_key_map_updEntry (c cat : String) (a : ℚ)
    (stats : List (String × ℚ)) :
    (stats.map (updEntry cat a)).filter (fun p => p.1 == c)
      = (stats.filter (fun p => p.1 == c)).map (updEntry cat a) := by
  rw [List.filter_map]
  congr 1
  refine List.filter_congr (fun p _ => ?_)
  simp [Function.comp, updEntry_fst]

lemma map_updEntry_keyVal (c cat : String) (a : ℚ) (stats : List (String × ℚ)) :
    keyVal c (stats.map (updEntry cat a))
      = keyVal c stats
        + (if c = cat then ((stats.filter (fun p => p.1 == cat)).length : ℚ) * a
           else 0) := by
  unfold keyVal
  rw [filter_key_map_updEntry]
  by_cases hc : c = cat
  · subst hc
    have hmap : (stats.filter (fun p => p.1 == c)).map (updEntry c a)
        = (stats.filter (fun p => p.1 == c)).map (fun p => (p.1, p.2 + a)) := by
      refine List.map_congr_left (fun p hp => ?_)
      have hpc : (p.1 == c) = true := (List.mem_filter.mp hp).2
      unfold updEntry
      rw [if_pos hpc]
    rw [hmap, sum_snd_shift, if_pos rfl]
  · have hmap : (stats.filter (fun p => p.1 == c)).map (updEntry cat a)
        = stats.filter (fun p => p.1 == c) := by
      have : ∀ p ∈ stats.filter (fun p => p.1 == c), updEntry cat a p = p := by
        intro p hp
        have hpc : p.1 = c := by simpa using (List.mem_filter.mp hp).2
        unfold updEntry
        rw [if_neg (by simp [hpc, hc])]
      rw [List.map_congr_left this, List.map_id']
    rw [hmap, if_neg hc]
    ring

lemma statStep_nodup (f : Option String) (stats : List (String × ℚ))
    (t : Transaction) (h : (stats.map Prod.fst).Nodup) :
    ((statStep f stats t).map Prod.fst).Nodup := by
  unfold statStep
  by_cases hm : matchesFilter f t = true
  · by_cases ha : stats.any (fun p => p.1 == t.category) = true
    · rw [if_pos hm, if_pos ha, map_updEntry_keys]
      exact h
    · have hnot : t.category ∉ stats.map Prod.fst := by
        rw [← any_key_iff]
        simp [ha]
      simp [hm, ha, List.nodup_append, h, hnot]
  · simp [hm, h]

lemma statStep_mem (f : Option String) (stats : List (String × ℚ))
    (t : Transaction) (c : String) :
    c ∈ (statStep f stats t).map Prod.fst ↔
      c ∈ stats.map Prod.fst ∨ (matchesFilter f t = true ∧ c = t.category) := by
  unfold statStep
  by_cases hm : matchesFilter f t = true
  · by_cases ha : stats.any (fun p => p.1 == t.category) = true
    · simp only [hm, ha, if_true, map_updEntry_keys, true_and]
      constructor
      · exact fun h => Or.inl h
      · rintro (h | rfl)
        · exact h
        · exact (any_key_iff stats _).mp ha
    · simp [hm, ha, List.mem_append, eq_comm]
  · simp [hm]

lemma keyVal_append_single (c cat : String) (a : ℚ)
    (stats : List (String × ℚ)) :
    keyVal c (stats ++ [(cat, a)])
      = keyVal c stats + (if cat = c then a else 0) := by
  unfold keyVal
  rw [List.filter_append]
  by_cases hc : cat = c
  · simp [List.filter_cons, hc]
  · simp [List.filter_cons, hc]

lemma statStep_keyVal (f : Option String) (stats : List (String × ℚ))
    (t : Transaction) (c : String) (h : (stats.map Prod.fst).Nodup) :
    keyVal c (statStep f stats t)
      = keyVal c stats
        + (if matchesFilter f t && (t.category == c) then t.amount else 0) := by
  unfold statStep
  by_cases hm : matchesFilter f t = true
  · by_cases ha : stats.any (fun p => p.1 == t.category) = true
    · rw [if_pos hm, if_pos ha, map_updEntry_keyVal]
      by_cases hc : c = t.category
      · rw [if_pos hc, filter_key_length_one h (hc ▸ ha)]
        simp [hm, hc]
      · rw [if_neg hc]
        have : (t.category == c) = false := by
          simp only [beq_eq_false_iff_ne, ne_eq]
          exact fun he => hc (he ▸ rfl)
        simp [this]
    · rw [if_pos hm, if_neg ha, keyVal_append_single]
      by_cases hc : t.category = c
      · simp [hm, hc]
      · have : (t.category == c) = false := by simp [hc]
        simp [hc, this]
  · rw [if_neg hm]
    simp [hm]

lemma statStep_sum (f : Option String) (stats : List (String × ℚ))
    (t : Transaction) (h : (stats.map Prod.fst).Nodup) :
    ((statStep f stats t).map Prod.snd).sum
      = (stats.map Prod.snd).sum + (if matchesFilter f t then t.amount else 0) := by
  unfold statStep
  by_cases hm : matchesFilter f t = true
  · by_cases ha : stats.any (fun p => p.1 == t.category) = true
    · rw [if_pos hm, if_pos ha, map_updEntry_sum, filter_key_length_one h ha]
      simp [hm]
    · rw [if_pos hm, if_neg ha]
      simp [hm]
  · rw [if_neg hm]
    simp [hm]

lemma foldl_stat_nodup (f : Option String) (ts : List Transaction) :
    ∀ stats : List (String × ℚ), (stats.map Prod.fst).Nodup →
      ((ts.foldl (statStep f) stats).map Prod.fst).Nodup := by
  induction ts with
  | nil => exact fun stats h => h
  | cons t ts ih =>
    intro stats h
    rw [List.foldl_cons]
    exact ih _ (statStep_nodup f stats t h)

lemma foldl_stat_mem (f : Option String) (ts : List Transaction) :
    ∀ stats : List (String × ℚ), ∀ c : String,
      (c ∈ (ts.foldl (statStep f) stats).map Prod.fst ↔
        c ∈ stats.map Prod.fst
          ∨ c ∈ (ts.filter (matchesFilter f)).map Transaction.category) := by
  induction ts with
  | nil => simp
  | cons t ts ih =>
    intro stats c
    rw [List.foldl_cons, ih, statStep_mem, List.filter_cons]
    by_cases hm : matchesFilter f t = true
    · simp only [hm, if_true, List.map_cons, List.mem_cons, true_and]
      tauto
    · simp only [hm, Bool.false_eq_true, if_false, false_and, or_false]

lemma foldl_stat_keyVal (f : Option String) (c : String) (ts : List Transaction) :
    ∀ stats : List (String × ℚ), (stats.map Prod.fst).Nodup →
      keyVal c (ts.foldl (statStep f) stats)
        = keyVal c stats
          + ((ts.filter (fun t => matchesFilter f t && (t.category == c))).map
              Transaction.amount).sum := by
  induction ts with
  | nil => intro stats _; simp
  | cons t ts ih =>
    intro stats h
    rw [List.foldl_cons, ih _ (statStep_nodup f stats t h),
      statStep_keyVal f stats t c h, List.filter_cons]
    by_cases hcond : (matchesFilter f t && (t.category == c)) = true
    · simp only [hcond, if_true, if_pos rfl, List.map_cons, List.sum_cons]
      ring
    · simp [hcond]

lemma foldl_stat_sum (f : Option String) (ts : List Transaction) :
    ∀ stats : List (String × ℚ), (stats.map Prod.fst).Nodup →
      ((ts.foldl (statStep f) stats).map Prod.snd).sum
        = (stats.map Prod.snd).sum
          + ((ts.filter (matchesFilter f)).map Transaction.amount).sum := by
  induction ts with
  | nil => intro stats _; simp
  | cons t ts ih =>
    intro stats h
    rw [List.foldl_cons, ih _ (statStep_nodup f stats t h),
      statStep_sum f stats t h, List.filter_cons]
    by_cases hm : matchesFilter f t = true
    · simp [hm]
      ring
    · simp [hm]

lemma mem_firstOccs {x : String} : ∀ {l seen : List String},
    x ∈ firstOccs seen l → x ∈ l ∧ x ∉ seen := by
  intro l
  induction l with
  | nil => intro seen h; simp [firstOccs] at h
  | cons c cs ih =>
    intro seen h
    unfold firstOccs at h
    by_cases hc : c ∈ seen
    · rw [if_pos hc] at h
      rcases ih h with ⟨h1, h2⟩
      exact ⟨List.mem_cons_of_mem c h1, h2⟩
    · rw [if_neg hc] at h
      rcases List.mem_cons.mp h with rfl | h'
      · exact ⟨List.mem_cons_self x cs, hc⟩
      · rcases ih h' with ⟨h1, h2⟩
        exact ⟨List.mem_cons_of_mem c h1,
          fun hx => h2 (List.mem_cons_of_mem c hx)⟩

lemma firstOccs_congr : ∀ (l : List String) {s1 s2 : List String},
    (∀ x, x ∈ s1 ↔ x ∈ s2) → firstOccs s1 l = firstOccs s2 l := by
  intro l
  induction l with
  | nil => intro s1 s2 _; rfl
  | cons c cs ih =>
    intro s1 s2 h
    unfold firstOccs
    by_cases hc : c ∈ s1
    · rw [if_pos hc, if_pos ((h c).mp hc)]
      exact ih h
    · rw [if_neg hc, if_neg (fun hx => hc ((h c).mpr hx))]
      exact congrArg (List.cons c) (ih (fun x => by
        simp only [List.mem_cons]
        rw [h x]))

lemma foldl_stat_keys (f : Option String) (ts : List Transaction) :
    ∀ stats : List (String × ℚ),
      (ts.foldl (statStep f) stats).map Prod.fst
        = stats.map Prod.fst
            ++ firstOccs (stats.map Prod.fst)
                ((ts.filter (matchesFilter f)).map Transaction.category) := by
  induction ts with
  | nil => intro stats; simp [firstOccs]
  | cons t ts ih =>
    intro stats
    rw [List.foldl_cons, ih, List.filter_cons]
    by_cases hm : matchesFilter f t = true
    · rw [if_pos hm]
      simp only [List.map_cons]
      by_cases ha : stats.any (fun p => p.1 == t.category) = true
      · have hk : (statStep f stats t).map Prod.fst = stats.map Prod.fst := by
          unfold statStep
          rw [if_pos hm, if_pos ha, map_updEntry_keys]
        rw [hk]
        conv_rhs => rw [firstOccs]
        rw [if_pos ((any_key_iff _ _).mp ha)]
      · have hk : (statStep f stats t).map Prod.fst
            = stats.map Prod.fst ++ [t.category] := by
          unfold statStep
          rw [if_pos hm, if_neg ha, List.map_append]
          rfl
        rw [hk]
        have hnc : t.category ∉ stats.map Prod.fst :=
          fun hx => ha ((any_key_iff _ _).mpr hx)
        conv_rhs => rw [firstOccs]
        rw [if_neg hnc]
        rw [firstOccs_congr _ (show ∀ x,
          (x ∈ stats.map Prod.fst ++ [t.category] ↔ x ∈ t.category :: stats.map Prod.fst)
          from fun x => by simp [List.mem_append, or_comm])]
        simp
    · rw [if_neg hm]
      have hk : statStep f stats t = stats := by
        unfold statStep
        rw [if_neg hm]
      rw [hk]

lemma firstOccs_pairwise_indexOf : ∀ (l seen : List String),
    (firstOccs seen l).Pairwise (fun a b => l.indexOf a < l.indexOf b) := by
  intro l
  induction l with
  | nil => intro seen; simp [firstOccs]
  | cons c cs ih =>
    intro seen
    unfold firstOccs
    by_cases hc : c ∈ seen
    · rw [if_pos hc]
      refine (ih seen).imp_of_mem ?_
      intro a b ha hb hr
      have hane : c ≠ a := fun he => (mem_firstOccs ha).2 (he ▸ hc)
      have hbne : c ≠ b := fun he => (mem_firstOccs hb).2 (he ▸ hc)
      rw [List.indexOf_cons_ne _ hane, List.indexOf_cons_ne _ hbne]
      omega
    · rw [if_neg hc]
      refine List.pairwise_cons.mpr ⟨?_, ?_⟩
      · intro b hb
        have hbne : c ≠ b := fun he =>
          (mem_firstOccs hb).2 (he ▸ List.mem_cons_self c seen)
        rw [List.indexOf_cons_self, List.indexOf_cons_ne _ hbne]
        exact Nat.succ_pos _
      · refine (ih (c :: seen)).imp_of_mem ?_
        intro a b ha hb hr
        have hane : c ≠ a := fun he =>
          (mem_firstOccs ha).2 (he ▸ List.mem_cons_self c seen)
        have hbne : c ≠ b := fun he =>
          (mem_firstOccs hb).2 (he ▸ List.mem_cons_self c seen)
        rw [List.indexOf_cons_ne _ hane, List.indexOf_cons_ne _ hbne]
        omega

lemma pairwise_tie_orderedInsert (E : String × ℚ → String × ℚ → Prop)
    (a : String × ℚ) : ∀ l : List (String × ℚ),
    (∀ b ∈ l, a.2 = b.2 → E a b) →
    l.Pairwise (fun p q => p.2 = q.2 → E p q) →
    (List.orderedInsert statGe a l).Pairwise (fun p q => p.2 = q.2 → E p q) := by
  intro l
  induction l with
  | nil =>
    intro _ _
    simp [List.orderedInsert]
  | cons b l ih =>
    intro h1 h2
    rcases List.pairwise_cons.mp h2 with ⟨hb, h2'⟩
    rw [List.orderedInsert]
    by_cases hab : statGe a b
    · rw [if_pos hab]
      exact List.pairwise_cons.mpr ⟨fun y hy => h1 y hy, h2⟩
    · rw [if_neg hab]
      have hab' : a.2 < b.2 := not_le.mp hab
      refine List.pairwise_cons.mpr
        ⟨?_, ih (fun y hy => h1 y (List.mem_cons_of_mem b hy)) h2'⟩
      intro y hy
      rcases (List.mem_orderedInsert statGe).mp hy with rfl | hyl
      · intro hbe
        exact absurd hbe.symm (ne_of_lt hab')
      · exact hb y hyl

lemma pairwise_tie_insertionSort (E : String × ℚ → String × ℚ → Prop) :
    ∀ l : List (String × ℚ), l.Pairwise E →
      (List.insertionSort statGe l).Pairwise (fun p q => p.2 = q.2 → E p q) := by
  intro l
  induction l with
  | nil => intro _; simp
  | cons a l ih =>
    intro h
    rcases List.pairwise_cons.mp h with ⟨ha, h'⟩
    rw [List.insertionSort]
    refine pairwise_tie_orderedInsert E a _ ?_ (ih h')
    intro b hb _
    exact ha b ((List.mem_insertionSort statGe).mp hb)

lemma snd_eq_keyVal_of_mem {stats : List (String × ℚ)} {p : String × ℚ}
    (hnd : (stats.map Prod.fst).Nodup) (hp : p ∈ stats) :
    p.2 = keyVal p.1 stats := by
  induction stats with
  | nil => simp at hp
  | cons q stats ih =>
    simp only [List.map_cons, List.nodup_cons] at hnd
    rcases List.mem_cons.mp hp with rfl | hp'
    · unfold keyVal
      rw [List.filter_cons]
      have hself : (p.1 == p.1) = true := by simp
      simp only [hself, if_pos rfl]
      rw [filter_key_of_not_mem hnd.1]
      simp
    · have hkey : p.1 ∈ stats.map Prod.fst := List.mem_map.mpr ⟨p, hp', rfl⟩
      have hq : ¬ q.1 = p.1 := fun he => hnd.1 (he ▸ hkey)
      have hqb : (q.1 == p.1) = false := by simp [hq]
      unfold keyVal
      rw [List.filter_cons]
      simp only [hqb, Bool.false_eq_true, if_false]
      exact ih hnd.2 hp'

lemma filter_filter_eq (p q : Transaction → Bool) (l : List Transaction) :
    (l.filter p).filter q = l.filter (fun t => p t && q t) := by
  induction l with
  | nil => rfl
  | cons t l ih =>
    by_cases hp : p t = true <;> by_cases hq : q t = true <;>
      simp [List.filter_cons, hp, hq, ih]

lemma keyVal_perm {l1 l2 : List (String × ℚ)} (h : l1.Perm l2) (c : String) :
    keyVal c l1 = keyVal c l2 := by
  unfold keyVal
  exact List.Perm.sum_eq ((h.filter _).map _)

/-- C7: `get_category_statistics` returns an association list that is
sorted descending by summed amount, breaks ties by first-encounter order
of the category among the filter-matching transactions, contains a
category exactly when some matching transaction carries it, assigns each
category the sum of the matching amounts, totals to the filtered amount
sum, and has no duplicate keys. -/
theorem C7_category_statistics_spec (ts : List Transaction) (f : Option String) :
    (get_category_statistics ts f).Sorted statGe
  ∧ (get_category_statistics ts f).Pairwise (fun p q => p.2 = q.2 →
      ((ts.filter (matchesFilter f)).map Transaction.category).indexOf p.1
        < ((ts.filter (matchesFilter f)).map Transaction.category).indexOf q.1)
  ∧ (∀ c : String,
      c ∈ (get_category_statistics ts f).map Prod.fst ↔
        c ∈ (ts.filter (matchesFilter f)).map Transaction.category)
  ∧ (∀ p ∈ get_category_statistics ts f,
      p.2 = (((ts.filter (matchesFilter f)).filter
          (fun t => t.category == p.1)).map Transaction.amount).sum)
  ∧ ((get_category_statistics ts f).map Prod.snd).sum
      = ((ts.filter (matchesFilter f)).map Transaction.amount).sum
  ∧ ((get_category_statistics ts f).map Prod.fst).Nodup := by
  have hperm : (get_category_statistics ts f).Perm (ts.foldl (statStep f) []) :=
    List.perm_insertionSort statGe _
  have hnodagg : ((ts.foldl (statStep f) []).map Prod.fst).Nodup :=
    foldl_stat_nodup f ts [] (by simp)
  have hkeys : (ts.foldl (statStep f) []).map Prod.fst
      = firstOccs [] ((ts.filter (matchesFilter f)).map Transaction.category) := by
    simpa using foldl_stat_keys f ts []
  refine ⟨?_, ?_, ?_, ?_, ?_, ?_⟩
  · exact List.sorted_insertionSort statGe _
  · have h1 := firstOccs_pairwise_indexOf
      ((ts.filter (matchesFilter f)).map Transaction.category) []
    rw [← hkeys] at h1
    exact pairwise_tie_insertionSort _ _
      (List.Pairwise.of_map Prod.fst (fun a b h => h) h1)
  · intro c
    rw [(hperm.map Prod.fst).mem_iff, foldl_stat_mem f ts [] c]
    simp
  · intro p hp
    have hpagg : p ∈ ts.foldl (statStep f) [] := (hperm.mem_iff).mp hp
    rw [snd_eq_keyVal_of_mem hnodagg hpagg,
      foldl_stat_keyVal f p.1 ts [] (by simp), filter_filter_eq]
    simp [keyVal]
  · rw [List.Perm.sum_eq (hperm.map Prod.snd), foldl_stat_sum f ts [] (by simp)]
    simp
  · exact ((hperm.map Prod.fst).nodup_iff).mpr hnodagg

lemma sum_split_by_type (c : String) : ∀ ts : List Transaction,
    (∀ t ∈ ts, t.is_income = true ∨ t.is_expense = true) →
    ((ts.filter (fun t => matchesFilter none t && (t.category == c))).map
        Transaction.amount).sum
      = ((ts.filter (fun t => t.is_income && (t.category == c))).map
          Transaction.amount).sum
        + ((ts.filter (fun t => t.is_expense && (t.category == c))).map
            Transaction.amount).sum := by
  intro ts
  induction ts with
  | nil => intro _; simp
  | cons t ts ih =>
    intro hv
    have hv' := fun x hx => hv x (List.mem_cons_of_mem t hx)
    have hvt := hv t (List.mem_cons_self t ts)
    rw [List.filter_cons, List.filter_cons, List.filter_cons]
    by_cases hcat : (t.category == c) = true
    · rcases hvt with hi | he
      · have hty : t.transaction_type = "수입" := by
          simpa [Transaction.is_income] using hi
        have hne : t.is_expense = false := by
          simp [Transaction.is_expense, hty]
        have ih' := ih hv'
        simp only [matchesFilter, Bool.true_and] at ih'
        simp [matchesFilter, hcat, hi, hne]
        rw [ih']
        ring
      · have hty : t.transaction_type = "지출" := by
          simpa [Transaction.is_expense] using he
        have hne : t.is_income = false := by
          simp [Transaction.is_income, hty]
        have ih' := ih hv'
        simp only [matchesFilter, Bool.true_and] at ih'
        simp [matchesFilter, hcat, he, hne]
        rw [ih']
        ring
    · simp only [Bool.not_eq_true] at hcat
      have ih' := ih hv'
      simp only [matchesFilter, Bool.true_and] at ih'
      simp [matchesFilter, hcat]
      rw [ih']

/-- C10: without a type filter, income and expense transactions sharing a
category are accumulated into one entry whose value adds the unsigned
amounts of both kinds (no netting), and keys stay unique. -/
theorem C10_unfiltered_category_sums (ts : List Transaction)
    (hv : ∀ t ∈ ts, t.is_income = true ∨ t.is_expense = true) (c : String) :
    keyVal c (get_category_statistics ts none)
      = ((ts.filter (fun t => t.is_income && (t.category == c))).map
          Transaction.amount).sum
        + ((ts.filter (fun t => t.is_expense && (t.category == c))).map
            Transaction.amount).sum
  ∧ ((get_category_statistics ts none).map Prod.fst).Nodup := by
  have hperm : (get_category_statistics ts none).Perm
      (ts.foldl (statStep none) []) := List.perm_insertionSort statGe _
  constructor
  · rw [keyVal_perm hperm c, foldl_stat_keyVal none c ts [] (by simp),
      sum_split_by_type c ts hv]
    simp [keyVal]
  · exact ((hperm.map Prod.fst).nodup_iff).mpr
      (foldl_stat_nodup none ts [] (by simp))

/-- Witness for C10 at a two-transaction input sharing the category
`기타`: one income of 1000 and one expense of 300 yield the single entry
value 1300. -/
theorem C10_unfiltered_category_sums_witness :
    (∀ t ∈ ([⟨⟨2024, 1, 1, 0, 0, 0⟩, "기타", 1000, "수입", ""⟩,
             ⟨⟨2024, 1, 2, 0, 0, 0⟩, "기타", 300, "지출", ""⟩] : List Transaction),
        t.is_income = true ∨ t.is_expense = true)
  ∧ (keyVal "기타" (get_category_statistics
        [⟨⟨2024, 1, 1, 0, 0, 0⟩, "기타", 1000, "수입", ""⟩,
         ⟨⟨2024, 1, 2, 0, 0, 0⟩, "기타", 300, "지출", ""⟩] none)
      = ((([⟨⟨2024, 1, 1, 0, 0, 0⟩, "기타", 1000, "수입", ""⟩,
            ⟨⟨2024, 1, 2, 0, 0, 0⟩, "기타", 300, "지출", ""⟩] : List Transaction).filter
            (fun t => t.is_income && (t.category == "기타"))).map
          Transaction.amount).sum
        + ((([⟨⟨2024, 1, 1, 0, 0, 0⟩, "기타", 1000, "수입", ""⟩,
              ⟨⟨2024, 1, 2, 0, 0, 0⟩, "기타", 300, "지출", ""⟩] : List Transaction).filter
              (fun t => t.is_expense && (t.category == "기타"))).map
            Transaction.amount).sum
    ∧ ((get_category_statistics
          [⟨⟨2024, 1, 1, 0, 0, 0⟩, "기타", 1000, "수입", ""⟩,
           ⟨⟨2024, 1, 2, 0, 0, 0⟩, "기타", 300, "지출", ""⟩] none).map Prod.fst).Nodup) :=
  ⟨by decide, C10_unfiltered_category_sums _ (by decide) "기타"⟩
